import Mathlib

/-!
Verification of the `da-story-edit` repository: a shallow embedding of its
navigation-block codec (`navigation.py`), gallery parsing (`gallery.py`),
API pagination and slug normalization (`da_api.py`), and the sync
orchestrator's navigation-target computation (`cli.py`), together with
proofs of the behavioural properties stated in its specification.

Python strings are modelled as `List Char`.  `str.find` becomes `findSub`,
`str.strip` / `str.rstrip` become `pyStrip` / `rstrip`, slicing becomes
`List.take` / `List.drop`, and functions that raise become `Option` /
`Except` valued.
-/

namespace DaStoryEdit

/-- Python strings, modelled as lists of characters. -/
abbrev Str := List Char

/-- The characters removed by Python `str.strip()` with no argument
(the ASCII whitespace characters; the inputs manipulated by the codec are
ASCII, so the exotic Unicode whitespace code points are not modelled). -/
def pySpace (c : Char) : Bool :=
  c = ' ' || c = '\t' || c = '\n' || c = '\r' || c = '\x0b' || c = '\x0c'

/-- Python `str.lstrip()`. -/
def lstrip (s : Str) : Str := s.dropWhile pySpace

/-- Python `str.rstrip()`. -/
def rstrip (s : Str) : Str := (s.reverse.dropWhile pySpace).reverse

/-- Python `str.strip()`. -/
def pyStrip (s : Str) : Str := lstrip (rstrip s)

/-- Python `haystack.find(pat)`: the least index at which `pat` occurs as a
substring of `s`, or `none` where Python returns `-1`. -/
def findSub (pat : Str) : Str → Option Nat
  | [] => if pat.isPrefixOf [] then some 0 else none
  | c :: rest =>
      if pat.isPrefixOf (c :: rest) then some 0
      else (findSub pat rest).map (· + 1)

/-- Python `haystack.find(pat, start)`: the least index `≥ start` at which
`pat` occurs in `s`. -/
def findSubFrom (pat : Str) (s : Str) (start : Nat) : Option Nat :=
  (findSub pat (s.drop start)).map (· + start)

/-- Python `pat in s` (substring containment test). -/
def containsSub (pat : Str) (s : Str) : Bool := (findSub pat s).isSome

/-! ## navigation.py -/

def TOP_START : Str := "<!-- DA-STORY-EDIT:NAV:TOP:START -->".toList

def TOP_END : Str := "<!-- DA-STORY-EDIT:NAV:TOP:END -->".toList

def BOTTOM_START : Str := "<!-- DA-STORY-EDIT:NAV:BOTTOM:START -->".toList

def BOTTOM_END : Str := "<!-- DA-STORY-EDIT:NAV:BOTTOM:END -->".toList

/-- `navigation.NavTargets`. -/
structure NavTargets where
  first : Str
  prev : Option Str
  next : Option Str
  last : Str
deriving DecidableEq, Repr

/-- `navigation._link(label, url)`.  Python's `if not url` treats both
`None` and the empty string as absent. -/
def linkHtml (label : Str) (url : Option Str) : Str :=
  match url with
  | none => label
  | some u =>
      if u.isEmpty then label
      else "<a href=\"".toList ++ u ++ "\">".toList ++ label ++ "</a>".toList

/-- The `" | ".join([...])` of the four links in `render_nav_block`. -/
def navLinks (targets : NavTargets) : Str :=
  List.intercalate " | ".toList
    [linkHtml "first".toList (some targets.first),
     linkHtml "prev".toList targets.prev,
     linkHtml "next".toList targets.next,
     linkHtml "last".toList (some targets.last)]

/-- The `f"{start}\n<p>{links}</p>\n{end}"` body of `render_nav_block`,
for a given marker pair. -/
def renderBlock (startMark endMark : Str) (targets : NavTargets) : Str :=
  startMark ++ "\n<p>".toList ++ navLinks targets ++ "</p>\n".toList ++ endMark

/-- `navigation.render_nav_block(position, targets)`; `none` models the
`ValueError` raised for a position other than `"top"` or `"bottom"`. -/
def render_nav_block (position : Str) (targets : NavTargets) : Option Str :=
  if position = "top".toList then some (renderBlock TOP_START TOP_END targets)
  else if position = "bottom".toList then
    some (renderBlock BOTTOM_START BOTTOM_END targets)
  else none

/-- The body of `navigation._strip_block`'s `while True` loop, with an
explicit fuel argument bounding the number of iterations.  Each productive
iteration strictly shortens the document (the removed span contains the
non-empty end marker), so `length + 1` fuel always suffices; this is proved
below (`stripBlockFuel_congr`) and the fuel-free equations of the loop are
recovered as `stripBlock_step`, `stripBlock_trunc` and `stripBlock_notFound`. -/
def stripBlockFuel : Nat → Str → Str → Str → Str
  | 0, current, _, _ => current
  | fuel + 1, current, s, e =>
      match findSub s current with
      | none => current
      | some startIdx =>
          match findSubFrom e current startIdx with
          | none => rstrip (current.take startIdx)
          | some endIdx0 =>
              stripBlockFuel fuel
                (pyStrip (current.take startIdx ++ current.drop (endIdx0 + e.length)))
                s e

/-- `navigation._strip_block(body, start, end)`. -/
def stripBlock (body s e : Str) : Str :=
  stripBlockFuel (body.length + 1) body s e

/-- `navigation.strip_managed_navigation(body)`. -/
def strip_managed_navigation (body : Str) : Str :=
  pyStrip (stripBlock (stripBlock body TOP_START TOP_END) BOTTOM_START BOTTOM_END)

/-- `navigation.apply_navigation(body, targets)`.  The two
`render_nav_block` calls made with the literal positions `"top"` and
`"bottom"` always succeed; they are inlined as `renderBlock` with the
corresponding marker pair (see `render_nav_block_total` below). -/
def apply_navigation (body : Str) (targets : NavTargets) : Str :=
  let core := strip_managed_navigation body
  let top := renderBlock TOP_START TOP_END targets
  let bottom := renderBlock BOTTOM_START BOTTOM_END targets
  if !core.isEmpty then
    top ++ "\n\n".toList ++ core ++ "\n\n".toList ++ bottom ++ ['\n']
  else top ++ "\n\n".toList ++ bottom ++ ['\n']

/-! ## gallery.py -/

/-- `gallery.GalleryTarget`. -/
structure GalleryTarget where
  username : Str
  folder_ref : Option Str := none
  folder_slug : Option Str := none
deriving DecidableEq, Repr

/-- `gallery.DeviationSummary`. -/
structure DeviationSummary where
  deviation_id : Str
  title : Str
  url : Str
  kind : Str
deriving DecidableEq, Repr

instance : Inhabited DeviationSummary := ⟨⟨[], [], [], []⟩⟩

/-- The `DeviationSummary.is_literature` property. -/
def DeviationSummary.is_literature (d : DeviationSummary) : Bool :=
  d.kind == "literature".toList

/-- Python `str.isdigit()` (restricted to ASCII digits; the Unicode digit
code points accepted by Python are not modelled). -/
def pyIsDigit (s : Str) : Bool := !s.isEmpty && s.all Char.isDigit

/-- Python `str.lower()` (ASCII case folding). -/
def asciiLower (s : Str) : Str := s.map Char.toLower

/-- The leading characters removed by CPython `urlsplit` before parsing
(C0 controls and space, per WHATWG). -/
def isC0OrSpace (c : Char) : Bool := c.toNat ≤ 32

/-- CPython `urlsplit` preprocessing: remove leading C0 controls/space
(CPython left-strips only, preserving trailing space) and remove every
tab, carriage return and newline. -/
def urlsplitClean (u : Str) : Str :=
  (u.dropWhile isC0OrSpace).filter (fun c => !(c = '\t' || c = '\r' || c = '\n'))

/-- CPython `urlsplit` scheme validity: a leading ASCII letter followed by
letters, digits, `+`, `-` or `.`. -/
def validScheme (s : Str) : Bool :=
  match s with
  | [] => false
  | c :: rest =>
      c.isAlpha && rest.all (fun d => d.isAlpha || d.isDigit || d = '+' || d = '-' || d = '.')

/-- CPython `urlsplit` scheme split: at the first `:` when the part before
it is a valid scheme, returning the lower-cased scheme and the remainder
(the empty scheme and the whole input otherwise). -/
def urlSchemeRest (v : Str) : Str × Str :=
  match findSub [':'] v with
  | none => ([], v)
  | some i =>
      if validScheme (v.take i) then (asciiLower (v.take i), v.drop (i + 1))
      else ([], v)

/-- Characters ending the netloc component in CPython `urlsplit`. -/
def netlocEnd (c : Char) : Bool := c = '/' || c = '?' || c = '#'

/-- Characters ending the path component (start of query or fragment). -/
def pathEnd (c : Char) : Bool := c = '?' || c = '#'

/-- Python `s.rfind(c)` for a single character: the highest index at which
`c` occurs. -/
def rfindChar (c : Char) (s : Str) : Option Nat :=
  (findSub [c] s.reverse).map (fun i => s.length - 1 - i)

/-- CPython `urllib.parse._splitparams` restricted to the path it keeps:
drop the `;params` suffix of the last path segment (when the path holds a
`/`, only a `;` at or after the last `/` counts).  Both callers guard on
`';' in path`, so the not-found fallbacks are unreachable there. -/
def splitParamsPath (p : Str) : Str :=
  if containsSub ['/'] p then
    match rfindChar '/' p with
    | none => p
    | some r =>
        match findSubFrom [';'] p r with
        | none => p
        | some i => p.take i
  else
    match findSub [';'] p with
    | none => p
    | some i => p.take i

/-- `urllib.parse.uses_params`: the schemes whose paths carry `;params`
(the empty scheme included). -/
def uses_params : List Str :=
  ["", "ftp", "hdl", "prospero", "http", "imap", "https", "shttp", "rtsp",
    "rtspu", "sip", "sips", "mms", "sftp", "tel"].map String.toList

/-- The path of `urlparse(v)` versus `urlsplit(v)`: `urlparse` splits the
`;params` off the last path segment when the scheme uses params and the
path contains a `;`. -/
def urlparsePath (scheme p : Str) : Str :=
  if uses_params.contains scheme && containsSub [';'] p then splitParamsPath p
  else p

/-- The `(netloc, path)` of CPython `urlparse(v)`: after cleaning and
scheme removal, a netloc is present only after a literal `//`, running to
the first `/`, `?` or `#`; the path runs to the first `?` or `#` and is
then stripped of the `;params` suffix of its last segment when the scheme
uses params (the empty and `https` schemes among them). -/
def urlNetlocPath (v : Str) : Str × Str :=
  let sr := urlSchemeRest (urlsplitClean v)
  let u := sr.2
  if u.take 2 = ['/', '/'] then
    let rest := u.drop 2
    (rest.takeWhile (fun c => !netlocEnd c),
     urlparsePath sr.1
       ((rest.dropWhile (fun c => !netlocEnd c)).takeWhile (fun c => !pathEnd c)))
  else ([], urlparsePath sr.1 (u.takeWhile (fun c => !pathEnd c)))

/-- The netloc of `urlparse(v)`. -/
def urlNetloc (v : Str) : Str := (urlNetlocPath v).1

/-- `[part for part in parsed.path.split("/") if part]`. -/
def pathParts (v : Str) : List Str :=
  (((urlNetlocPath v).2).splitOn '/').filter (fun p => !p.isEmpty)

/-- `gallery.parse_gallery_target(raw)`; `Except.error` models the
`ConfigError` raised on invalid input, carrying the message. -/
def parse_gallery_target (raw : Str) : Except Str GalleryTarget :=
  let value := pyStrip raw
  if value.isEmpty then .error "Gallery input must not be empty.".toList
  else if !containsSub "://".toList value then
    .ok { username := value }
  else
    let netloc := urlNetloc value
    let parts := pathParts value
    if netloc ≠ "www.deviantart.com".toList then
      .error "Gallery URL must use host www.deviantart.com.".toList
    else if parts.length < 2 ∨ parts.getD 1 [] ≠ "gallery".toList then
      .error "Gallery URL must look like /<user>/gallery/... .".toList
    else
      let username := parts.getD 0 []
      let folder_ref : Option Str :=
        if 3 ≤ parts.length ∧ pyIsDigit (parts.getD 2 []) then some (parts.getD 2 [])
        else none
      let folder_slug : Option Str :=
        if 4 ≤ parts.length then some (asciiLower (pyStrip (parts.getD 3 [])))
        else none
      .ok { username := username, folder_ref := folder_ref, folder_slug := folder_slug }

/-- A raw gallery entry record (one dict of the API's `results` list).
String-valued fields are `none` when absent or falsy (`entry.get(k) or ""`
then collapses them to `""`); `text_content_is_dict` records whether the
record carries a nested `text_content` dict. -/
structure RawEntry where
  deviationid : Option Str := none
  title : Option Str := none
  url : Option Str := none
  type : Option Str := none
  text_content_is_dict : Bool := false
deriving DecidableEq, Repr

/-- `str(entry_dict.get(key) or "")` for a string-or-absent field. -/
def strOrEmpty (o : Option Str) : Str := o.getD []

/-- The body of the `for entry in raw_results` loop of
`gallery.parse_gallery_results`: `none` when the entry is dropped. -/
def parseGalleryEntry (entry : RawEntry) : Option DeviationSummary :=
  let deviation_id := pyStrip (strOrEmpty entry.deviationid)
  let title := pyStrip (strOrEmpty entry.title)
  let url := pyStrip (strOrEmpty entry.url)
  let kind0 := asciiLower (pyStrip (strOrEmpty entry.type))
  let kind1 :=
    if kind0.isEmpty && entry.text_content_is_dict then "literature".toList else kind0
  let kind := if kind1.isEmpty then "unknown".toList else kind1
  if deviation_id.isEmpty || title.isEmpty || url.isEmpty then none
  else some { deviation_id := deviation_id, title := title, url := url, kind := kind }

/-- `gallery.parse_gallery_results` applied to the `results` list (the
surrounding `isinstance` check on the payload raises before this loop and
is handled by the caller). -/
def parse_gallery_results (results : List RawEntry) : List DeviationSummary :=
  results.filterMap parseGalleryEntry

/-! ## da_api.py -/

/-- `da_api.slugify_name`'s first step,
`unicodedata.normalize("NFKD", value).encode("ascii", "ignore").decode()`:
NFKD fixes ASCII code points and the ASCII encode drops the rest (the
decompositions of non-ASCII letters that contain ASCII are not modelled;
the folder names exercised here are ASCII). -/
def nfkdAsciiIgnore (s : Str) : Str := s.filter (fun c => c.toNat < 128)

/-- `re.sub(r"[^a-z0-9]+", "", lowered)`: delete every character outside
`[a-z0-9]`. -/
def isLowerAlnum (c : Char) : Bool := ('a' ≤ c && c ≤ 'z') || ('0' ≤ c && c ≤ '9')

/-- `da_api.slugify_name(value)`. -/
def slugify_name (value : Str) : Str :=
  (asciiLower (nfkdAsciiIgnore value)).filter isLowerAlnum

/-- One page of a gallery listing as consumed by
`DeviantArtApiClient.list_gallery`: the parsed `results` list, the
`has_more` flag, and `next_offset` (`some` exactly when the payload's
`next_offset` is an int). -/
structure GalleryPage where
  results : List RawEntry
  has_more : Bool
  next_offset : Option Int
deriving Repr

/-- The state of `list_gallery`'s pagination loop. -/
structure PagState where
  offset : Int
  acc : List DeviationSummary
  done : Bool
deriving DecidableEq, Repr

/-- The initial state of the pagination loop (`offset = 0`). -/
def pagInit : PagState := ⟨0, [], false⟩

/-- The fixed `limit` of every request issued by `list_gallery`. -/
def galleryLimit : Nat := 24

/-- One iteration of the `while True` loop of
`DeviantArtApiClient.list_gallery`; the server is abstracted as a function
from the request's `(offset, limit)` to the response page. -/
def listGalleryStep (srv : Int → Nat → GalleryPage) (st : PagState) : PagState :=
  if st.done then st
  else
    let payload := srv st.offset galleryLimit
    let page_items := parse_gallery_results payload.results
    let acc := st.acc ++ page_items
    if !payload.has_more then ⟨st.offset, acc, true⟩
    else
      match payload.next_offset with
      | none =>
          if page_items.isEmpty then ⟨st.offset, acc, true⟩
          else ⟨st.offset + page_items.length, acc, false⟩
      | some n => ⟨n, acc, false⟩

/-! ## cli.py -/

/-- The `NavTargets` computed by the sync loop of `cli.run` for the
1-indexed position `idx` within the ordered `literature` list:
`first = literature[0].url`, `last = literature[-1].url`,
`prev = literature[idx - 2].url if idx > 1 else None`,
`next = literature[idx].url if idx < len(literature) else None`. -/
def navTargetsFor (literature : List DeviationSummary) (idx : Nat) : NavTargets :=
  { first := (literature.getD 0 default).url
    prev := if 1 < idx then some ((literature.getD (idx - 2) default).url) else none
    next :=
      if idx < literature.length then some ((literature.getD idx default).url)
      else none
    last := (literature.getD (literature.length - 1) default).url }

/-- The guard of the resolver's highest-priority "direct id" path in
`cli._resolve_gallery_deviations`: `target.folder_ref` truthy and
containing a dash. -/
def directFolderIdPath (t : GalleryTarget) : Bool :=
  match t.folder_ref with
  | none => false
  | some fr => !fr.isEmpty && containsSub ['-'] fr

/-! ## Side conditions and concrete inputs used by the theorems -/

/-- The two-character HTML comment opener `<!` that every navigation
marker starts with. -/
def bangLt : Str := ['<', '!']

/-- `s` contains none of the four navigation markers as a substring. -/
def markerFree (s : Str) : Bool :=
  !containsSub TOP_START s && !containsSub TOP_END s &&
    !containsSub BOTTOM_START s && !containsSub BOTTOM_END s

/-- No occurrence of `<!` in an optional URL slot. -/
def urlClean (u : Option Str) : Bool :=
  match u with
  | none => true
  | some s => !containsSub bangLt s

/-- None of the four URL slots of `t` contains the substring `<!` (so the
rendered link paragraph cannot fabricate a navigation marker). -/
def cleanTargets (t : NavTargets) : Bool :=
  urlClean (some t.first) && urlClean t.prev && urlClean t.next && urlClean (some t.last)

/-- The `\n<p>{links}</p>\n` segment between a block's two markers. -/
def midPart (targets : NavTargets) : Str :=
  "\n<p>".toList ++ navLinks targets ++ "</p>\n".toList

/-- A document whose non-navigation core, as recovered by
`strip_managed_navigation`, is exactly the literal `TOP_START` marker:
removing the bottom block that interrupts the spelled-out top marker glues
the marker together. -/
def advDoc : Str :=
  "<!-- DA-STORY-EDIT:NAV:TOP".toList ++ BOTTOM_START ++ BOTTOM_END ++ ":START -->".toList

/-- Concrete, well-behaved targets used by the counterexamples. -/
def navT0 : NavTargets := ⟨"u1".toList, none, none, "u2".toList⟩

/-- A well-behaved document used by the witnesses. -/
def helloDoc : Str := "<p>Hello world</p>".toList

/-- Well-behaved targets used by the witnesses. -/
def navT1 : NavTargets :=
  ⟨"https://example.com/1".toList, none, some "https://example.com/2".toList,
    "https://example.com/9".toList⟩

/-- A malformed document: a top start marker with no end marker after it. -/
def malformedDoc : Str := "ab ".toList ++ TOP_START ++ "cd".toList

/-- A document holding one complete top block followed by text. -/
def duplicatedDoc : Str :=
  TOP_START ++ "x".toList ++ TOP_END ++ " tail".toList

/-- An inconsistent server: every page says more data is available, carries
a server-supplied `next_offset` of `0`, and returns zero items. -/
def badSrv : Int → Nat → GalleryPage := fun _ _ => ⟨[], true, some 0⟩

/-- A well-formed one-entry page used by the pagination witness. -/
def entryA : RawEntry :=
  { deviationid := some "uuid-1".toList, title := some "Title 1".toList,
    url := some "https://www.deviantart.com/a/art/x".toList,
    type := some "literature".toList }

/-- A one-page server: the first page has the single entry and no more
data. -/
def goodSrv : Int → Nat → GalleryPage := fun _ _ => ⟨[entryA], false, none⟩

/-- The `DeviationSummary` parsed from `entryA`. -/
def devA : DeviationSummary :=
  ⟨"uuid-1".toList, "Title 1".toList,
    "https://www.deviantart.com/a/art/x".toList, "literature".toList⟩

/-- A three-entry literature list used by the orchestrator witness. -/
def lit3 : List DeviationSummary :=
  [⟨"i1".toList, "t1".toList, "url1".toList, "literature".toList⟩,
   ⟨"i2".toList, "t2".toList, "url2".toList, "literature".toList⟩,
   ⟨"i3".toList, "t3".toList, "url3".toList, "literature".toList⟩]

/-! ## Characterization of `findSub` (Python `str.find`) -/

theorem findSub_eq_some_iff {pat s : Str} {k : Nat} :
    findSub pat s = some k ↔
      pat <+: s.drop k ∧ ∀ j, j < k → ¬ pat <+: s.drop j := by
  induction s generalizing k with
  | nil =>
    simp only [findSub, List.drop_nil]
    by_cases hp : pat.isPrefixOf ([] : Str)
    · have hp' : pat = [] := List.prefix_nil.mp (List.isPrefixOf_iff_prefix.mp hp)
      subst hp'
      rw [if_pos hp]
      constructor
      · intro h
        have hk : k = 0 := by simpa using h.symm
        subst hk
        exact ⟨List.nil_prefix, fun j hj => absurd hj (Nat.not_lt_zero j)⟩
      · rintro ⟨-, h2⟩
        have hk : k = 0 := by
          by_contra hne
          exact h2 0 (Nat.pos_of_ne_zero hne) List.nil_prefix
        subst hk; rfl
    · rw [if_neg hp]
      constructor
      · intro h; exact absurd h (by simp)
      · rintro ⟨h1, -⟩
        exact absurd (List.isPrefixOf_iff_prefix.mpr h1) hp
  | cons c rest ih =>
    simp only [findSub]
    by_cases hpre : pat.isPrefixOf (c :: rest)
    · rw [if_pos hpre]
      have hpre' : pat <+: c :: rest := List.isPrefixOf_iff_prefix.mp hpre
      constructor
      · intro h
        have hk : k = 0 := by simpa using h.symm
        subst hk
        exact ⟨by simpa using hpre', fun j hj => absurd hj (Nat.not_lt_zero j)⟩
      · rintro ⟨-, h2⟩
        have hk : k = 0 := by
          by_contra hne
          exact h2 0 (Nat.pos_of_ne_zero hne) (by simpa using hpre')
        subst hk; rfl
    · rw [if_neg hpre]
      have hpre' : ¬ pat <+: c :: rest :=
        fun h => hpre (List.isPrefixOf_iff_prefix.mpr h)
      cases k with
      | zero =>
        constructor
        · intro h
          rw [Option.map_eq_some'] at h
          obtain ⟨a, -, ha⟩ := h
          omega
        · rintro ⟨h1, -⟩
          exact absurd (by simpa using h1) hpre'
      | succ k' =>
        rw [Option.map_eq_some']
        constructor
        · rintro ⟨a, ha, hak⟩
          have haeq : a = k' := by omega
          subst haeq
          obtain ⟨g1, g2⟩ := ih.mp ha
          refine ⟨by simpa [List.drop_succ_cons] using g1, ?_⟩
          intro j hj
          cases j with
          | zero => simpa using hpre'
          | succ j' =>
            intro hc
            exact g2 j' (by omega) (by simpa [List.drop_succ_cons] using hc)
        · rintro ⟨g1, g2⟩
          refine ⟨k', ih.mpr ⟨by simpa [List.drop_succ_cons] using g1, ?_⟩, rfl⟩
          intro j hj hc
          exact g2 (j + 1) (by omega) (by simpa [List.drop_succ_cons] using hc)

theorem findSub_eq_none_iff {pat s : Str} :
    findSub pat s = none ↔ ∀ j, ¬ pat <+: s.drop j := by
  induction s with
  | nil =>
    simp only [findSub, List.drop_nil]
    by_cases hp : pat.isPrefixOf ([] : Str)
    · have hp' : pat = [] := List.prefix_nil.mp (List.isPrefixOf_iff_prefix.mp hp)
      subst hp'
      simp
    · rw [if_neg hp]
      have : ¬ pat <+: [] := fun h => hp (List.isPrefixOf_iff_prefix.mpr h)
      simp [this]
  | cons c rest ih =>
    simp only [findSub]
    by_cases hpre : pat.isPrefixOf (c :: rest)
    · rw [if_pos hpre]
      have hpre' : pat <+: c :: rest := List.isPrefixOf_iff_prefix.mp hpre
      constructor
      · intro h; exact absurd h (by simp)
      · intro h
        exact absurd (by simpa using hpre' : pat <+: (c :: rest).drop 0) (h 0)
    · rw [if_neg hpre]
      have hpre' : ¬ pat <+: c :: rest :=
        fun h => hpre (List.isPrefixOf_iff_prefix.mpr h)
      rw [Option.map_eq_none', ih]
      constructor
      · intro h j
        cases j with
        | zero => simpa using hpre'
        | succ j' => simpa [List.drop_succ_cons] using h j'
      · intro h j
        simpa [List.drop_succ_cons] using h (j + 1)

theorem infix_occurs_iff {p s : Str} : (∃ j, p <+: s.drop j) ↔ p <:+: s := by
  constructor
  · rintro ⟨j, hj⟩
    exact hj.isInfix.trans (List.drop_suffix j s).isInfix
  · rintro ⟨l, r, rfl⟩
    refine ⟨l.length, ?_⟩
    rw [List.append_assoc, List.drop_left]
    exact List.prefix_append p r

theorem containsSub_eq_false_iff {p s : Str} :
    containsSub p s = false ↔ ¬ p <:+: s := by
  unfold containsSub
  have hnone : (findSub p s).isSome = false ↔ findSub p s = none := by
    cases h : findSub p s <;> simp
  rw [hnone, findSub_eq_none_iff, ← infix_occurs_iff]
  push_neg
  rfl

theorem containsSub_eq_true_iff {p s : Str} :
    containsSub p s = true ↔ p <:+: s := by
  rw [← not_iff_not]
  simp only [Bool.not_eq_true, not_not]
  exact containsSub_eq_false_iff

theorem findSub_append_self (p r : Str) : findSub p (p ++ r) = some 0 :=
  findSub_eq_some_iff.mpr
    ⟨by simp only [List.drop_zero]; exact List.prefix_append p r,
     fun j hj => absurd hj (Nat.not_lt_zero j)⟩

/-! ## Occurrences inside concatenations -/

theorem prefix_of_append_of_le {x u b : Str} (hx : x <+: u ++ b)
    (hlen : x.length ≤ u.length) : x <+: u := by
  have h1 : x = (u ++ b).take x.length := List.prefix_iff_eq_take.mp hx
  have h2 : (u ++ b).take x.length = u.take x.length :=
    List.take_append_of_le_length hlen
  exact List.prefix_iff_eq_take.mpr (h1.trans h2)

theorem append_prefix_of_prefix {u b x : Str} (hx : x <+: u ++ b)
    (hlen : u.length ≤ x.length) : u <+: x ∧ x.drop u.length <+: b := by
  constructor
  · have hx' : x = (u ++ b).take x.length := List.prefix_iff_eq_take.mp hx
    have htk : x.take u.length = u := by
      rw [hx', List.take_take]
      have hmin : min u.length x.length = u.length := Nat.min_eq_left hlen
      rw [hmin]
      exact List.take_left u b
    rw [List.prefix_iff_eq_take]
    exact htk.symm
  · obtain ⟨r, hr⟩ := hx
    refine ⟨r, ?_⟩
    have hdr := congrArg (List.drop u.length) hr
    rwa [List.drop_append_of_le_length hlen, List.drop_left] at hdr

theorem infix_append_cases {x a b : Str} (h : x <:+: a ++ b) :
    x <:+: a ∨ x <:+: b ∨
      ∃ x₁ x₂, x₁ ++ x₂ = x ∧ x₁ ≠ [] ∧ x₂ ≠ [] ∧ x₁ <:+ a ∧ x₂ <+: b := by
  obtain ⟨j, hj⟩ := infix_occurs_iff.mpr h
  by_cases hja : a.length ≤ j
  · right; left
    have hd : (a ++ b).drop j = b.drop (j - a.length) := by
      have h2 : a.length + (j - a.length) = j := by omega
      calc (a ++ b).drop j = (a ++ b).drop (a.length + (j - a.length)) := by rw [h2]
        _ = b.drop (j - a.length) := List.drop_append _
    rw [hd] at hj
    exact infix_occurs_iff.mp ⟨_, hj⟩
  · have hja' : j ≤ a.length := by omega
    have hd : (a ++ b).drop j = a.drop j ++ b := List.drop_append_of_le_length hja'
    rw [hd] at hj
    by_cases hxl : x.length ≤ (a.drop j).length
    · left
      exact (prefix_of_append_of_le hj hxl).isInfix.trans (List.drop_suffix j a).isInfix
    · right; right
      have hlen : (a.drop j).length ≤ x.length := by omega
      obtain ⟨hu, hrest⟩ := append_prefix_of_prefix hj hlen
      have hd2 : (a.drop j).length = a.length - j := List.length_drop j a
      refine ⟨a.drop j, x.drop (a.drop j).length, ?_, ?_, ?_, List.drop_suffix j a, hrest⟩
      · have := List.prefix_iff_eq_take.mp hu
        conv_rhs => rw [← List.take_append_drop (a.drop j).length x]
        rw [← this]
      · intro hnil
        have h0 := congrArg List.length hnil
        rw [hd2] at h0
        simp only [List.length_nil] at h0
        omega
      · intro hnil
        have h0 := congrArg List.length hnil
        rw [List.length_drop, hd2] at h0
        simp only [List.length_nil] at h0
        omega

theorem not_infix_append {x a b : Str} (ha : ¬ x <:+: a) (hb : ¬ x <:+: b)
    (hcross : ∀ x₁ x₂, x₁ ++ x₂ = x → x₁ ≠ [] → x₂ ≠ [] → x₁ <:+ a → x₂ <+: b → False) :
    ¬ x <:+: a ++ b := by
  intro h
  rcases infix_append_cases h with h | h | ⟨x₁, x₂, he, h1, h2, h3, h4⟩
  · exact ha h
  · exact hb h
  · exact hcross x₁ x₂ he h1 h2 h3 h4

theorem suffix_getLast_mem {a x₁ : Str} (h : x₁ <:+ a) (hne : x₁ ≠ []) :
    ∃ c, a.getLast? = some c ∧ c ∈ x₁ := by
  obtain ⟨v, rfl⟩ := h
  refine ⟨x₁.getLast hne, ?_, List.getLast_mem hne⟩
  rw [List.getLast?_append_of_ne_nil v hne]
  exact List.getLast?_eq_getLast x₁ hne

theorem prefix_head_mem {b x₂ : Str} (h : x₂ <+: b) (hne : x₂ ≠ []) :
    ∃ c, b.head? = some c ∧ c ∈ x₂ := by
  cases x₂ with
  | nil => exact absurd rfl hne
  | cons c cs =>
    obtain ⟨t, rfl⟩ := h
    exact ⟨c, rfl, List.mem_cons_self c cs⟩

theorem not_infix_append_left {x a b : Str} (ha : ¬ x <:+: a) (hb : ¬ x <:+: b)
    (hchar : ∀ c, a.getLast? = some c → c ∉ x) : ¬ x <:+: a ++ b := by
  refine not_infix_append ha hb ?_
  intro x₁ x₂ hx h1 _ h3 _
  obtain ⟨c, hc1, hc2⟩ := suffix_getLast_mem h3 h1
  exact hchar c hc1 (hx ▸ List.mem_append.mpr (Or.inl hc2))

theorem not_infix_append_right {x a b : Str} (ha : ¬ x <:+: a) (hb : ¬ x <:+: b)
    (hchar : ∀ c, b.head? = some c → c ∉ x) : ¬ x <:+: a ++ b := by
  refine not_infix_append ha hb ?_
  intro x₁ x₂ hx _ h2 _ h4
  obtain ⟨c, hc1, hc2⟩ := prefix_head_mem h4 h2
  exact hchar c hc1 (hx ▸ List.mem_append.mpr (Or.inr hc2))

theorem noBang_append {a b : Str} (ha : ¬ bangLt <:+: a) (hb : ¬ bangLt <:+: b)
    (hside : a.getLast? ≠ some '<' ∨ b.head? ≠ some '!') : ¬ bangLt <:+: a ++ b := by
  refine not_infix_append ha hb ?_
  intro x₁ x₂ hx h1 h2 h3 h4
  have hshape : x₁ = ['<'] ∧ x₂ = ['!'] := by
    have hlen := congrArg List.length hx
    simp only [List.length_append] at hlen
    have hl1 : 0 < x₁.length := List.length_pos.mpr h1
    have hl2 : 0 < x₂.length := List.length_pos.mpr h2
    have hlen2 : x₁.length + x₂.length = 2 := by
      simpa [bangLt] using hlen
    have hx1 : x₁.length = 1 := by omega
    have hx2 : x₂.length = 1 := by omega
    obtain ⟨c1, hc1⟩ := List.length_eq_one.mp hx1
    obtain ⟨c2, hc2⟩ := List.length_eq_one.mp hx2
    subst hc1; subst hc2
    have : c1 = '<' ∧ c2 = '!' := by
      have hx' : [c1, c2] = bangLt := by simpa using hx
      simp only [bangLt] at hx'
      exact ⟨by injection hx', by injection hx' with _ h; injection h⟩
    exact ⟨by rw [this.1], by rw [this.2]⟩
  obtain ⟨hx1, hx2⟩ := hshape
  subst hx1; subst hx2
  obtain ⟨c, hc1, hc2⟩ := suffix_getLast_mem h3 (by simp)
  obtain ⟨d, hd1, hd2⟩ := prefix_head_mem h4 (by simp)
  simp only [List.mem_singleton] at hc2 hd2
  subst hc2; subst hd2
  rcases hside with hside | hside
  · exact hside hc1
  · exact hside hd1

theorem not_infix_of_length_lt {x y : Str} (h : y.length < x.length) : ¬ x <:+: y :=
  fun hc => absurd hc.length_le (by omega)

theorem not_infix_dropLast_self {x : Str} (hx : x ≠ []) : ¬ x <:+: x.dropLast := by
  refine not_infix_of_length_lt ?_
  rw [List.length_dropLast]
  have : 0 < x.length := List.length_pos.mpr hx
  omega

theorem prefix_drop_take {p s : Str} {j n : Nat} (h : p <+: s.drop j)
    (hn : j + p.length ≤ n) : p <+: (s.take n).drop j := by
  rw [List.drop_take]
  have h1 : p = (s.drop j).take p.length := List.prefix_iff_eq_take.mp h
  have h2 : ((s.drop j).take (n - j)).take p.length = (s.drop j).take p.length := by
    rw [List.take_take]
    have hmin : min p.length (n - j) = p.length := Nat.min_eq_left (by omega)
    rw [hmin]
  exact List.prefix_iff_eq_take.mpr (h1.trans h2.symm)

/-- First-occurrence lemma: if `p` does not occur in `A` glued to all of
`p` but its last character, then the first occurrence of `p` in
`A ++ p ++ r` is at index `A.length`. -/
theorem findSub_append_middle {p A r : Str} (hp : p ≠ [])
    (hA : ¬ p <:+: A ++ p.dropLast) :
    findSub p (A ++ p ++ r) = some A.length := by
  refine findSub_eq_some_iff.mpr ⟨?_, ?_⟩
  · rw [List.append_assoc, List.drop_left]
    exact List.prefix_append p r
  · intro j hj hc
    apply hA
    have hple : 0 < p.length := List.length_pos.mpr hp
    have hd : (A ++ p ++ r).drop j = (A ++ p).drop j ++ r := by
      apply List.drop_append_of_le_length
      rw [List.length_append]
      omega
    rw [hd] at hc
    have hxl : p.length ≤ ((A ++ p).drop j).length := by
      rw [List.length_drop, List.length_append]
      omega
    have hpref : p <+: (A ++ p).drop j := prefix_of_append_of_le hc hxl
    have hsplit : A ++ p = (A ++ p.dropLast) ++ [p.getLast hp] := by
      rw [List.append_assoc]
      congr 1
      exact (List.dropLast_append_getLast hp).symm
    have htk : (A ++ p).take (A ++ p.dropLast).length = A ++ p.dropLast := by
      rw [hsplit]
      exact List.take_left _ _
    have hlen2 : j + p.length ≤ (A ++ p.dropLast).length := by
      rw [List.length_append, List.length_dropLast]
      omega
    have hocc := prefix_drop_take hpref hlen2
    rw [htk] at hocc
    exact infix_occurs_iff.mp ⟨j, hocc⟩

/-! ## Properties of `lstrip`, `rstrip` and `pyStrip` -/

theorem dropWhile_head_not {p : Char → Bool} {l : Str} {c : Char} {t : Str}
    (h : l.dropWhile p = c :: t) : p c = false := by
  induction l with
  | nil => exact absurd h (by simp)
  | cons a as ih =>
    rw [List.dropWhile_cons] at h
    by_cases hpa : p a = true
    · rw [if_pos hpa] at h
      exact ih h
    · rw [if_neg hpa] at h
      have hac : a = c := by injection h
      subst hac
      simpa using hpa

theorem dropWhile_append_of_all {p : Char → Bool} {w s : Str}
    (h : ∀ c ∈ w, p c = true) : (w ++ s).dropWhile p = s.dropWhile p := by
  induction w with
  | nil => rfl
  | cons a as ih =>
    rw [List.cons_append, List.dropWhile_cons, if_pos (h a (by simp))]
    exact ih fun c hc => h c (by simp [hc])

theorem dropWhile_eq_self_of_head {p : Char → Bool} {s : Str}
    (h : ∀ c, s.head? = some c → p c = false) : s.dropWhile p = s := by
  cases s with
  | nil => rfl
  | cons a as => rw [List.dropWhile_cons, if_neg (by simp [h a rfl])]

theorem dropWhile_eq_nil_of_all {p : Char → Bool} {s : Str}
    (h : ∀ c ∈ s, p c = true) : s.dropWhile p = [] := by
  induction s with
  | nil => rfl
  | cons a as ih =>
    rw [List.dropWhile_cons, if_pos (h a (by simp))]
    exact ih fun c hc => h c (by simp [hc])

theorem head?_append_left {a b : Str} (h : a ≠ []) : (a ++ b).head? = a.head? := by
  cases a with
  | nil => exact absurd rfl h
  | cons c cs => rfl

theorem getLast?_reverse' (l : Str) : l.reverse.getLast? = l.head? := by
  have h := List.head?_reverse l.reverse
  rw [List.reverse_reverse] at h
  exact h.symm

theorem lstrip_append_of_space {w s : Str} (h : ∀ c ∈ w, pySpace c = true) :
    lstrip (w ++ s) = lstrip s := dropWhile_append_of_all h

theorem lstrip_eq_self_of_head {s : Str}
    (h : ∀ c, s.head? = some c → pySpace c = false) : lstrip s = s :=
  dropWhile_eq_self_of_head h

theorem rstrip_append_of_space {w s : Str} (h : ∀ c ∈ w, pySpace c = true) :
    rstrip (s ++ w) = rstrip s := by
  unfold rstrip
  rw [List.reverse_append]
  rw [dropWhile_append_of_all fun c hc => h c (List.mem_reverse.mp hc)]

theorem rstrip_eq_self_of_getLast {s : Str}
    (h : ∀ c, s.getLast? = some c → pySpace c = false) : rstrip s = s := by
  unfold rstrip
  rw [dropWhile_eq_self_of_head, List.reverse_reverse]
  intro c hc
  exact h c (by rwa [List.head?_reverse] at hc)

theorem lstrip_head_not {s : Str} {c : Char} {t : Str}
    (h : lstrip s = c :: t) : pySpace c = false := dropWhile_head_not h

theorem rstrip_getLast_not {s : Str} {c : Char}
    (h : (rstrip s).getLast? = some c) : pySpace c = false := by
  unfold rstrip at h
  rw [getLast?_reverse'] at h
  cases hd : s.reverse.dropWhile pySpace with
  | nil => rw [hd] at h; exact absurd h (by simp)
  | cons a as =>
    rw [hd] at h
    have hac : a = c := by simpa using h
    subst hac
    exact dropWhile_head_not hd

theorem pyStrip_head_not {s : Str} {c : Char} {t : Str}
    (h : pyStrip s = c :: t) : pySpace c = false := lstrip_head_not h

theorem lstrip_suffix (s : Str) : lstrip s <:+ s := List.dropWhile_suffix pySpace

theorem pyStrip_getLast_not {s : Str} {c : Char}
    (h : (pyStrip s).getLast? = some c) : pySpace c = false := by
  unfold pyStrip at h
  by_cases hn : lstrip (rstrip s) = []
  · rw [hn] at h
    exact absurd h (by simp)
  · obtain ⟨v, hv⟩ := lstrip_suffix (rstrip s)
    have h2 : (rstrip s).getLast? = some c := by
      rw [← hv, List.getLast?_append_of_ne_nil v hn]
      exact h
    exact rstrip_getLast_not h2

theorem rstrip_length_le (s : Str) : (rstrip s).length ≤ s.length := by
  unfold rstrip
  rw [List.length_reverse]
  calc (s.reverse.dropWhile pySpace).length ≤ s.reverse.length :=
        (List.dropWhile_sublist pySpace).length_le
    _ = s.length := List.length_reverse s

theorem pyStrip_length_le (s : Str) : (pyStrip s).length ≤ s.length :=
  le_trans (List.dropWhile_sublist pySpace).length_le (rstrip_length_le s)

theorem pyStrip_idem (s : Str) : pyStrip (pyStrip s) = pyStrip s := by
  have hr : rstrip (pyStrip s) = pyStrip s := by
    apply rstrip_eq_self_of_getLast
    intro c hc
    exact pyStrip_getLast_not hc
  unfold pyStrip
  rw [show rstrip (lstrip (rstrip s)) = lstrip (rstrip s) from hr]
  apply lstrip_eq_self_of_head
  intro c hc
  cases hl : lstrip (rstrip s) with
  | nil => rw [hl] at hc; exact absurd hc (by simp)
  | cons a as =>
    rw [hl] at hc
    have : a = c := by simpa using hc
    subst this
    exact lstrip_head_not hl

theorem allSpace_pyStrip {s : Str} (h : ∀ c ∈ s, pySpace c = true) :
    pyStrip s = [] := by
  unfold pyStrip lstrip
  apply dropWhile_eq_nil_of_all
  intro c hc
  apply h
  unfold rstrip at hc
  rw [List.mem_reverse] at hc
  have hmem : c ∈ s.reverse := (List.dropWhile_sublist pySpace).subset hc
  exact List.mem_reverse.mp hmem

/-- `pyStrip` of whitespace, then a block with non-space first and last
characters, then whitespace, is the block itself. -/
theorem pyStrip_sandwich {w1 mid w2 : Str}
    (h1 : ∀ c ∈ w1, pySpace c = true) (h2 : ∀ c ∈ w2, pySpace c = true)
    (hmid : mid ≠ [])
    (hh : ∀ c, mid.head? = some c → pySpace c = false)
    (hl : ∀ c, mid.getLast? = some c → pySpace c = false) :
    pyStrip (w1 ++ mid ++ w2) = mid := by
  unfold pyStrip
  rw [List.append_assoc, ← List.append_assoc w1 mid w2]
  rw [rstrip_append_of_space h2]
  rw [rstrip_eq_self_of_getLast ?hlast]
  case hlast =>
    intro c hc
    rw [List.getLast?_append_of_ne_nil w1 hmid] at hc
    exact hl c hc
  rw [lstrip_append_of_space h1]
  exact lstrip_eq_self_of_head hh

/-! ## The `_strip_block` loop: fuel irrelevance and unfolding equations -/

theorem findSubFrom_bounds {e cur : Str} {i j : Nat} (he : e ≠ [])
    (h : findSubFrom e cur i = some j) :
    i ≤ j ∧ j + e.length ≤ cur.length ∧ e <+: cur.drop j := by
  unfold findSubFrom at h
  rw [Option.map_eq_some'] at h
  obtain ⟨a, ha, haj⟩ := h
  obtain ⟨h1, -⟩ := findSub_eq_some_iff.mp ha
  subst haj
  have hdd : (cur.drop i).drop a = cur.drop (a + i) := by
    rw [List.drop_drop, Nat.add_comm i a]
  rw [hdd] at h1
  have hlen := h1.length_le
  rw [List.length_drop] at hlen
  have hel : 0 < e.length := List.length_pos.mpr he
  exact ⟨by omega, by omega, h1⟩

theorem removal_shrinks {cur e : Str} {i j : Nat} (he : e ≠ [])
    (h2 : findSubFrom e cur i = some j) :
    (pyStrip (cur.take i ++ cur.drop (j + e.length))).length < cur.length := by
  obtain ⟨hij, hje, -⟩ := findSubFrom_bounds he h2
  have hel : 0 < e.length := List.length_pos.mpr he
  calc (pyStrip (cur.take i ++ cur.drop (j + e.length))).length
      ≤ (cur.take i ++ cur.drop (j + e.length)).length := pyStrip_length_le _
    _ = (cur.take i).length + (cur.drop (j + e.length)).length :=
        List.length_append _ _
    _ < cur.length := by
        rw [List.length_take, List.length_drop]
        omega

theorem stripBlockFuel_congr {s e : Str} (he : e ≠ []) :
    ∀ n₁ n₂ cur, cur.length < n₁ → cur.length < n₂ →
      stripBlockFuel n₁ cur s e = stripBlockFuel n₂ cur s e := by
  intro n₁
  induction n₁ with
  | zero => intro n₂ cur h1 h2; omega
  | succ m ih =>
    intro n₂ cur h1 h2
    cases n₂ with
    | zero => omega
    | succ k =>
      cases hfs : findSub s cur with
      | none => simp only [stripBlockFuel, hfs]
      | some i =>
        cases hff : findSubFrom e cur i with
        | none => simp only [stripBlockFuel, hfs, hff]
        | some j =>
          simp only [stripBlockFuel, hfs, hff]
          have hdec := removal_shrinks he hff
          exact ih k _ (by omega) (by omega)

theorem stripBlock_notFound {body s e : Str} (h : findSub s body = none) :
    stripBlock body s e = body := by
  unfold stripBlock
  simp only [stripBlockFuel, h]

theorem stripBlock_trunc {body s e : Str} {i : Nat}
    (h1 : findSub s body = some i) (h2 : findSubFrom e body i = none) :
    stripBlock body s e = rstrip (body.take i) := by
  unfold stripBlock
  simp only [stripBlockFuel, h1, h2]

theorem stripBlock_step {body s e : Str} {i j : Nat} (he : e ≠ [])
    (h1 : findSub s body = some i) (h2 : findSubFrom e body i = some j) :
    stripBlock body s e =
      stripBlock (pyStrip (body.take i ++ body.drop (j + e.length))) s e := by
  have hxl := removal_shrinks he h2
  unfold stripBlock
  calc stripBlockFuel (body.length + 1) body s e
      = stripBlockFuel body.length
          (pyStrip (body.take i ++ body.drop (j + e.length))) s e := by
        simp only [stripBlockFuel, h1, h2]
    _ = stripBlockFuel
          ((pyStrip (body.take i ++ body.drop (j + e.length))).length + 1)
          (pyStrip (body.take i ++ body.drop (j + e.length))) s e :=
        stripBlockFuel_congr he body.length _ _ hxl (Nat.lt_succ_self _)

/-! ## No spurious marker occurrence inside a rendered block -/

theorem cleanTargets_props {t : NavTargets} (h : cleanTargets t = true) :
    (¬ bangLt <:+: t.first) ∧ (∀ u, t.prev = some u → ¬ bangLt <:+: u) ∧
      (∀ u, t.next = some u → ¬ bangLt <:+: u) ∧ (¬ bangLt <:+: t.last) := by
  unfold cleanTargets urlClean at h
  simp only [Bool.and_eq_true] at h
  obtain ⟨⟨⟨h1, h2⟩, h3⟩, h4⟩ := h
  refine ⟨containsSub_eq_false_iff.mp (by simpa using h1), ?_, ?_,
    containsSub_eq_false_iff.mp (by simpa using h4)⟩
  · intro u hu
    rw [hu] at h2
    exact containsSub_eq_false_iff.mp (by simpa using h2)
  · intro u hu
    rw [hu] at h3
    exact containsSub_eq_false_iff.mp (by simpa using h3)

theorem linkHtml_noBang {label : Str} {url : Option Str}
    (h1 : ¬ bangLt <:+: label)
    (h2 : ¬ bangLt <:+: "\">".toList ++ (label ++ "</a>".toList))
    (h3 : ∀ u, url = some u → ¬ bangLt <:+: u) :
    ¬ bangLt <:+: linkHtml label url := by
  cases url with
  | none => simpa [linkHtml] using h1
  | some u =>
    by_cases hu : u.isEmpty
    · simpa [linkHtml, hu] using h1
    · have hns : linkHtml label (some u) =
          "<a href=\"".toList ++
            (u ++ ("\">".toList ++ (label ++ "</a>".toList))) := by
        simp [linkHtml, hu, List.append_assoc]
      rw [hns]
      apply noBang_append (containsSub_eq_false_iff.mp (by decide))
      · apply noBang_append (h3 u rfl) h2
        exact Or.inr (by rw [head?_append_left (by decide)]; decide)
      · exact Or.inl (by decide)

theorem navLinks_eq (t : NavTargets) :
    navLinks t =
      linkHtml "first".toList (some t.first) ++
        (" | ".toList ++
          (linkHtml "prev".toList t.prev ++
            (" | ".toList ++
              (linkHtml "next".toList t.next ++
                (" | ".toList ++ linkHtml "last".toList (some t.last)))))) := by
  simp [navLinks, List.intercalate, List.intersperse, List.append_assoc]

theorem sep_head : (" | ".toList : Str).head? = some ' ' := rfl

theorem navLinks_noBang {t : NavTargets} (ht : cleanTargets t = true) :
    ¬ bangLt <:+: navLinks t := by
  obtain ⟨hf, hp, hn, hl⟩ := cleanTargets_props ht
  rw [navLinks_eq]
  have l1 : ¬ bangLt <:+: linkHtml "first".toList (some t.first) :=
    linkHtml_noBang (containsSub_eq_false_iff.mp (by decide))
      (containsSub_eq_false_iff.mp (by decide))
      (fun u hu => by injection hu with h; exact h ▸ hf)
  have l2 : ¬ bangLt <:+: linkHtml "prev".toList t.prev :=
    linkHtml_noBang (containsSub_eq_false_iff.mp (by decide))
      (containsSub_eq_false_iff.mp (by decide)) hp
  have l3 : ¬ bangLt <:+: linkHtml "next".toList t.next :=
    linkHtml_noBang (containsSub_eq_false_iff.mp (by decide))
      (containsSub_eq_false_iff.mp (by decide)) hn
  have l4 : ¬ bangLt <:+: linkHtml "last".toList (some t.last) :=
    linkHtml_noBang (containsSub_eq_false_iff.mp (by decide))
      (containsSub_eq_false_iff.mp (by decide))
      (fun u hu => by injection hu with h; exact h ▸ hl)
  have hsep : ¬ bangLt <:+: (" | ".toList : Str) :=
    containsSub_eq_false_iff.mp (by decide)
  have step : ∀ x : Str, ¬ bangLt <:+: x →
      ¬ bangLt <:+: " | ".toList ++ x := by
    intro x hx
    apply noBang_append hsep hx
    exact Or.inl (by decide)
  have glue : ∀ l x : Str, ¬ bangLt <:+: l → ¬ bangLt <:+: x →
      ¬ bangLt <:+: l ++ (" | ".toList ++ x) := by
    intro l x hli hx
    apply noBang_append hli (step x hx)
    exact Or.inr (by rw [head?_append_left (by decide)]; decide)
  exact glue _ _ l1 (glue _ _ l2 (glue _ _ l3 l4))

theorem midPart_noBang {t : NavTargets} (ht : cleanTargets t = true) :
    ¬ bangLt <:+: midPart t := by
  unfold midPart
  rw [List.append_assoc]
  apply noBang_append (containsSub_eq_false_iff.mp (by decide))
  · apply noBang_append (navLinks_noBang ht)
      (containsSub_eq_false_iff.mp (by decide))
    exact Or.inr (by decide)
  · exact Or.inl (by decide)

theorem midPart_ne_nil (t : NavTargets) : midPart t ≠ [] := by
  unfold midPart
  intro h
  have := congrArg List.length h
  simp [List.length_append] at this

theorem midPart_head (t : NavTargets) : (midPart t).head? = some '\n' := by
  unfold midPart
  rw [List.append_assoc, head?_append_left (by decide)]
  rfl

theorem midPart_getLast (t : NavTargets) : (midPart t).getLast? = some '\n' := by
  unfold midPart
  rw [List.getLast?_append_of_ne_nil _ (by decide)]
  rfl

/-- A marker (they all start with `<!`) cannot occur in a `<!`-free text. -/
theorem noMark_of_noBang {m x : Str} (hm : bangLt <+: m)
    (hx : ¬ bangLt <:+: x) : ¬ m <:+: x :=
  fun hc => hx (hm.isInfix.trans hc)

theorem renderBlock_eq (s e : Str) (t : NavTargets) :
    renderBlock s e t = s ++ (midPart t ++ e) := by
  unfold renderBlock midPart
  simp [List.append_assoc]

/-! ## Locating the rendered blocks inside an `apply_navigation` output -/

theorem findSubFrom_zero (e s : Str) : findSubFrom e s 0 = findSub e s := by
  unfold findSubFrom
  rw [List.drop_zero]
  cases findSub e s <;> simp

theorem findSub_nil {p : Str} (hp : p ≠ []) : findSub p [] = none := by
  unfold findSub
  rw [if_neg]
  intro h
  exact hp (List.prefix_nil.mp (List.isPrefixOf_iff_prefix.mp h))

theorem notmem_of_head_eq {x b : Str} {ch : Char} (hb : b.head? = some ch)
    (hx : ch ∉ x) : ∀ c, b.head? = some c → c ∉ x := by
  intro c hc
  rw [hb] at hc
  injection hc with h
  exact h ▸ hx

theorem notmem_of_getLast_eq {x a : Str} {ch : Char} (ha : a.getLast? = some ch)
    (hx : ch ∉ x) : ∀ c, a.getLast? = some c → c ∉ x := by
  intro c hc
  rw [ha] at hc
  injection hc with h
  exact h ▸ hx

theorem drop_append2 (a b r : Str) : (a ++ (b ++ r)).drop (a.length + b.length) = r := by
  rw [← List.append_assoc, ← List.length_append]
  exact List.drop_left _ _

theorem take_append2 (a b r : Str) :
    (a ++ (b ++ r)).take (a.length + b.length) = a ++ b := by
  rw [← List.append_assoc, ← List.length_append]
  exact List.take_left _ _

theorem findSub_middle2 {p a b r : Str} (hp : p ≠ [])
    (hA : ¬ p <:+: (a ++ b) ++ p.dropLast) :
    findSub p (a ++ (b ++ (p ++ r))) = some (a.length + b.length) := by
  have h : findSub p ((a ++ b) ++ p ++ r) = some (a ++ b).length :=
    findSub_append_middle hp hA
  rw [List.append_assoc, List.append_assoc, List.length_append] at h
  exact h

theorem bang_pfx_TS : bangLt <+: TOP_START := List.isPrefixOf_iff_prefix.mp (by decide)

theorem bang_pfx_TE : bangLt <+: TOP_END := List.isPrefixOf_iff_prefix.mp (by decide)

theorem bang_pfx_BS : bangLt <+: BOTTOM_START :=
  List.isPrefixOf_iff_prefix.mp (by decide)

theorem bang_pfx_BE : bangLt <+: BOTTOM_END :=
  List.isPrefixOf_iff_prefix.mp (by decide)

theorem mid_no_TS {t : NavTargets} (ht : cleanTargets t = true) :
    ¬ TOP_START <:+: midPart t := noMark_of_noBang bang_pfx_TS (midPart_noBang ht)

theorem mid_no_TE {t : NavTargets} (ht : cleanTargets t = true) :
    ¬ TOP_END <:+: midPart t := noMark_of_noBang bang_pfx_TE (midPart_noBang ht)

theorem mid_no_BS {t : NavTargets} (ht : cleanTargets t = true) :
    ¬ BOTTOM_START <:+: midPart t := noMark_of_noBang bang_pfx_BS (midPart_noBang ht)

theorem mid_no_BE {t : NavTargets} (ht : cleanTargets t = true) :
    ¬ BOTTOM_END <:+: midPart t := noMark_of_noBang bang_pfx_BE (midPart_noBang ht)

/-- No early occurrence of the top end marker before the one closing the
rendered top block. -/
theorem top_no_early_TE {t : NavTargets} (ht : cleanTargets t = true) :
    ¬ TOP_END <:+: (TOP_START ++ midPart t) ++ TOP_END.dropLast := by
  rw [List.append_assoc]
  apply not_infix_append_right (containsSub_eq_false_iff.mp (by decide))
  · apply not_infix_append_left (mid_no_TE ht)
      (not_infix_dropLast_self (by decide))
    exact notmem_of_getLast_eq (midPart_getLast t) (by decide)
  · have hh : (midPart t ++ TOP_END.dropLast).head? = some '\n' := by
      rw [head?_append_left (midPart_ne_nil t)]
      exact midPart_head t
    exact notmem_of_head_eq hh (by decide)

/-- No early occurrence of the bottom end marker before the one closing
the rendered bottom block. -/
theorem bottom_no_early_BE {t : NavTargets} (ht : cleanTargets t = true) :
    ¬ BOTTOM_END <:+: (BOTTOM_START ++ midPart t) ++ BOTTOM_END.dropLast := by
  rw [List.append_assoc]
  apply not_infix_append_right (containsSub_eq_false_iff.mp (by decide))
  · apply not_infix_append_left (mid_no_BE ht)
      (not_infix_dropLast_self (by decide))
    exact notmem_of_getLast_eq (midPart_getLast t) (by decide)
  · have hh : (midPart t ++ BOTTOM_END.dropLast).head? = some '\n' := by
      rw [head?_append_left (midPart_ne_nil t)]
      exact midPart_head t
    exact notmem_of_head_eq hh (by decide)

/-- The rendered bottom block contains no occurrence of the top start
marker. -/
theorem bottom_no_TS {t : NavTargets} (ht : cleanTargets t = true) :
    ¬ TOP_START <:+: BOTTOM_START ++ (midPart t ++ BOTTOM_END) := by
  apply not_infix_append_right (containsSub_eq_false_iff.mp (by decide))
  · apply not_infix_append_left (mid_no_TS ht)
      (containsSub_eq_false_iff.mp (by decide))
    exact notmem_of_getLast_eq (midPart_getLast t) (by decide)
  · have hh : (midPart t ++ BOTTOM_END).head? = some '\n' := by
      rw [head?_append_left (midPart_ne_nil t)]
      exact midPart_head t
    exact notmem_of_head_eq hh (by decide)

theorem append_ne_nil_left {a b : Str} (h : a ≠ []) : a ++ b ≠ [] := by
  intro hc
  exact h (List.append_eq_nil.mp hc).1

theorem drop_append3 (a b c r : Str) :
    (a ++ (b ++ (c ++ r))).drop (a.length + b.length + c.length) = r := by
  have h1 : a ++ (b ++ (c ++ r)) = (a ++ b ++ c) ++ r := by
    simp [List.append_assoc]
  have h2 : a.length + b.length + c.length = (a ++ b ++ c).length := by
    simp only [List.length_append]
  rw [h1, h2]
  exact List.drop_left _ _

/-- The first occurrence of `BOTTOM_END` in a rendered bottom block closes
it. -/
theorem findSub_BE_bottom {t : NavTargets} (ht : cleanTargets t = true) :
    findSub BOTTOM_END (BOTTOM_START ++ (midPart t ++ BOTTOM_END)) =
      some (BOTTOM_START.length + (midPart t).length) := by
  have h : findSub BOTTOM_END (BOTTOM_START ++ (midPart t ++ (BOTTOM_END ++ []))) =
      some (BOTTOM_START.length + (midPart t).length) :=
    findSub_middle2 (by decide) (bottom_no_early_BE ht)
  simpa using h

/-- Stripping a document of the exact shape produced by `apply_navigation`
recovers the core, provided the core contains no navigation marker and the
targets render no `<!`. -/
theorem strip_managed_of_wrapped (core : Str) (t : NavTargets)
    (hstr : pyStrip core = core)
    (hTS : ¬ TOP_START <:+: core) (hTE : ¬ TOP_END <:+: core)
    (hBS : ¬ BOTTOM_START <:+: core) (hBE : ¬ BOTTOM_END <:+: core)
    (ht : cleanTargets t = true) :
    strip_managed_navigation
      (if !core.isEmpty then
        renderBlock TOP_START TOP_END t ++ "\n\n".toList ++ core ++
          "\n\n".toList ++ renderBlock BOTTOM_START BOTTOM_END t ++ ['\n']
      else
        renderBlock TOP_START TOP_END t ++ "\n\n".toList ++
          renderBlock BOTTOM_START BOTTOM_END t ++ ['\n']) = core := by
  cases hc : core.isEmpty with
  | true =>
    have hcnil : core = [] := by simpa using hc
    subst hcnil
    rw [if_neg (by simp)]
    have hS : renderBlock TOP_START TOP_END t ++ "\n\n".toList ++
        renderBlock BOTTOM_START BOTTOM_END t ++ ['\n'] =
        TOP_START ++ (midPart t ++ (TOP_END ++
          ("\n\n".toList ++ (BOTTOM_START ++ (midPart t ++ (BOTTOM_END ++ ['\n'])))))) := by
      rw [renderBlock_eq, renderBlock_eq]
      simp [List.append_assoc]
    unfold strip_managed_navigation
    rw [hS]
    have hfTS : findSub TOP_START
        (TOP_START ++ (midPart t ++ (TOP_END ++
          ("\n\n".toList ++ (BOTTOM_START ++ (midPart t ++ (BOTTOM_END ++ ['\n']))))))) =
        some 0 := by
      have h := findSub_append_self TOP_START
        (midPart t ++ (TOP_END ++
          ("\n\n".toList ++ (BOTTOM_START ++ (midPart t ++ (BOTTOM_END ++ ['\n']))))))
      exact h
    have hff : findSubFrom TOP_END
        (TOP_START ++ (midPart t ++ (TOP_END ++
          ("\n\n".toList ++ (BOTTOM_START ++ (midPart t ++ (BOTTOM_END ++ ['\n']))))))) 0 =
        some (TOP_START.length + (midPart t).length) := by
      rw [findSubFrom_zero]
      exact findSub_middle2 (by decide) (top_no_early_TE ht)
    rw [stripBlock_step (by decide) hfTS hff]
    have hcomp : pyStrip
        ((TOP_START ++ (midPart t ++ (TOP_END ++
          ("\n\n".toList ++ (BOTTOM_START ++ (midPart t ++ (BOTTOM_END ++ ['\n']))))))).take 0 ++
         (TOP_START ++ (midPart t ++ (TOP_END ++
          ("\n\n".toList ++ (BOTTOM_START ++ (midPart t ++ (BOTTOM_END ++ ['\n']))))))).drop
            (TOP_START.length + (midPart t).length + TOP_END.length)) =
        BOTTOM_START ++ (midPart t ++ BOTTOM_END) := by
      rw [List.take_zero, List.nil_append, drop_append3]
      have hre : "\n\n".toList ++ (BOTTOM_START ++ (midPart t ++ (BOTTOM_END ++ ['\n']))) =
          "\n\n".toList ++ (BOTTOM_START ++ (midPart t ++ BOTTOM_END)) ++ ['\n'] := by
        simp [List.append_assoc]
      rw [hre]
      apply pyStrip_sandwich (by decide) (by decide)
        (append_ne_nil_left (by decide))
      · intro c hcc
        rw [head?_append_left (by decide)] at hcc
        have : c = '<' := by
          have hbs : BOTTOM_START.head? = some '<' := by decide
          rw [hbs] at hcc
          injection hcc with h
          exact h.symm
        subst this
        decide
      · intro c hcc
        rw [List.getLast?_append_of_ne_nil _ (append_ne_nil_left (midPart_ne_nil t)),
          List.getLast?_append_of_ne_nil _ (by decide : BOTTOM_END ≠ [])] at hcc
        have : c = '>' := by
          have hbe : BOTTOM_END.getLast? = some '>' := by decide
          rw [hbe] at hcc
          injection hcc with h
          exact h.symm
        subst this
        decide
    rw [hcomp]
    rw [stripBlock_notFound (findSub_eq_none_iff.mpr
      (fun j hj => bottom_no_TS ht (infix_occurs_iff.mp ⟨j, hj⟩)))]
    have hfBS0 : findSub BOTTOM_START (BOTTOM_START ++ (midPart t ++ BOTTOM_END)) =
        some 0 := findSub_append_self _ _
    have hffBE0 : findSubFrom BOTTOM_END
        (BOTTOM_START ++ (midPart t ++ BOTTOM_END)) 0 =
        some (BOTTOM_START.length + (midPart t).length) := by
      rw [findSubFrom_zero]
      exact findSub_BE_bottom ht
    rw [stripBlock_step (by decide) hfBS0 hffBE0]
    have hcomp2 : pyStrip
        ((BOTTOM_START ++ (midPart t ++ BOTTOM_END)).take 0 ++
         (BOTTOM_START ++ (midPart t ++ BOTTOM_END)).drop
            (BOTTOM_START.length + (midPart t).length + BOTTOM_END.length)) = [] := by
      rw [List.take_zero, List.nil_append]
      have hlen : BOTTOM_START.length + (midPart t).length + BOTTOM_END.length =
          (BOTTOM_START ++ (midPart t ++ BOTTOM_END)).length := by
        simp [List.length_append]
        omega
      rw [hlen, List.drop_length]
      rfl
    rw [hcomp2]
    rw [stripBlock_notFound (findSub_nil (by decide))]
    rfl
  | false =>
    have hcne : core ≠ [] := by
      intro h
      rw [h] at hc
      simp at hc
    have hchead : ∀ c, core.head? = some c → pySpace c = false := by
      intro c hcc
      cases hcore : core with
      | nil => rw [hcore] at hcc; exact absurd hcc (by simp)
      | cons a as =>
        rw [hcore] at hcc
        have hac : a = c := by injection hcc
        subst hac
        exact pyStrip_head_not (by rw [hstr, hcore])
    have hclast : ∀ c, core.getLast? = some c → pySpace c = false := by
      intro c hcc
      exact pyStrip_getLast_not (by rw [hstr]; exact hcc)
    rw [if_pos (by decide : (!false) = true)]
    have hS : renderBlock TOP_START TOP_END t ++ "\n\n".toList ++ core ++
        "\n\n".toList ++ renderBlock BOTTOM_START BOTTOM_END t ++ ['\n'] =
        TOP_START ++ (midPart t ++ (TOP_END ++ ("\n\n".toList ++ (core ++
          ("\n\n".toList ++ (BOTTOM_START ++ (midPart t ++ (BOTTOM_END ++ ['\n'])))))))) := by
      rw [renderBlock_eq, renderBlock_eq]
      simp [List.append_assoc]
    unfold strip_managed_navigation
    rw [hS]
    have hfTS : findSub TOP_START
        (TOP_START ++ (midPart t ++ (TOP_END ++ ("\n\n".toList ++ (core ++
          ("\n\n".toList ++ (BOTTOM_START ++ (midPart t ++ (BOTTOM_END ++ ['\n'])))))))))
        = some 0 := findSub_append_self _ _
    have hff : findSubFrom TOP_END
        (TOP_START ++ (midPart t ++ (TOP_END ++ ("\n\n".toList ++ (core ++
          ("\n\n".toList ++ (BOTTOM_START ++ (midPart t ++ (BOTTOM_END ++ ['\n'])))))))))
        0 = some (TOP_START.length + (midPart t).length) := by
      rw [findSubFrom_zero]
      exact findSub_middle2 (by decide) (top_no_early_TE ht)
    rw [stripBlock_step (by decide) hfTS hff]
    have hcomp : pyStrip
        ((TOP_START ++ (midPart t ++ (TOP_END ++ ("\n\n".toList ++ (core ++
          ("\n\n".toList ++ (BOTTOM_START ++ (midPart t ++ (BOTTOM_END ++ ['\n']))))))))).take 0 ++
         (TOP_START ++ (midPart t ++ (TOP_END ++ ("\n\n".toList ++ (core ++
          ("\n\n".toList ++ (BOTTOM_START ++ (midPart t ++ (BOTTOM_END ++ ['\n']))))))))).drop
            (TOP_START.length + (midPart t).length + TOP_END.length)) =
        core ++ ("\n\n".toList ++ (BOTTOM_START ++ (midPart t ++ BOTTOM_END))) := by
      rw [List.take_zero, List.nil_append, drop_append3]
      have hre : "\n\n".toList ++ (core ++ ("\n\n".toList ++
          (BOTTOM_START ++ (midPart t ++ (BOTTOM_END ++ ['\n']))))) =
          "\n\n".toList ++ (core ++ ("\n\n".toList ++
            (BOTTOM_START ++ (midPart t ++ BOTTOM_END)))) ++ ['\n'] := by
        simp [List.append_assoc]
      rw [hre]
      apply pyStrip_sandwich (by decide) (by decide) (append_ne_nil_left hcne)
      · intro c hcc
        rw [head?_append_left hcne] at hcc
        exact hchead c hcc
      · intro c hcc
        rw [List.getLast?_append_of_ne_nil _
            (append_ne_nil_left (by decide : ("\n\n".toList : Str) ≠ [])),
          List.getLast?_append_of_ne_nil _
            (append_ne_nil_left (by decide : BOTTOM_START ≠ [])),
          List.getLast?_append_of_ne_nil _ (append_ne_nil_left (midPart_ne_nil t)),
          List.getLast?_append_of_ne_nil _ (by decide : BOTTOM_END ≠ [])] at hcc
        have : c = '>' := by
          have hbe : BOTTOM_END.getLast? = some '>' := by decide
          rw [hbe] at hcc
          injection hcc with h
          exact h.symm
        subst this
        decide
    rw [hcomp]
    have hnoTS_X : ¬ TOP_START <:+:
        core ++ ("\n\n".toList ++ (BOTTOM_START ++ (midPart t ++ BOTTOM_END))) := by
      apply not_infix_append_right hTS
      · apply not_infix_append_left (containsSub_eq_false_iff.mp (by decide))
          (bottom_no_TS ht)
        exact notmem_of_getLast_eq (by decide :
          ("\n\n".toList : Str).getLast? = some '\n') (by decide)
      · have hh : ("\n\n".toList ++
            (BOTTOM_START ++ (midPart t ++ BOTTOM_END))).head? = some '\n' := by
          rw [head?_append_left (by decide)]
          rfl
        exact notmem_of_head_eq hh (by decide)
    rw [stripBlock_notFound (findSub_eq_none_iff.mpr
      (fun j hj => hnoTS_X (infix_occurs_iff.mp ⟨j, hj⟩)))]
    have hBSearly : ¬ BOTTOM_START <:+:
        (core ++ "\n\n".toList) ++ BOTTOM_START.dropLast := by
      rw [List.append_assoc]
      apply not_infix_append_right hBS
      · apply not_infix_append_left (containsSub_eq_false_iff.mp (by decide))
          (not_infix_dropLast_self (by decide))
        exact notmem_of_getLast_eq (by decide :
          ("\n\n".toList : Str).getLast? = some '\n') (by decide)
      · have hh : ("\n\n".toList ++ BOTTOM_START.dropLast).head? = some '\n' := by
          rw [head?_append_left (by decide)]
          rfl
        exact notmem_of_head_eq hh (by decide)
    have hfBS : findSub BOTTOM_START
        (core ++ ("\n\n".toList ++ (BOTTOM_START ++ (midPart t ++ BOTTOM_END)))) =
        some (core.length + ("\n\n".toList : Str).length) :=
      findSub_middle2 (by decide) hBSearly
    have hffBE : findSubFrom BOTTOM_END
        (core ++ ("\n\n".toList ++ (BOTTOM_START ++ (midPart t ++ BOTTOM_END))))
        (core.length + ("\n\n".toList : Str).length) =
        some (BOTTOM_START.length + (midPart t).length +
          (core.length + ("\n\n".toList : Str).length)) := by
      unfold findSubFrom
      rw [drop_append2, findSub_BE_bottom ht]
      rfl
    rw [stripBlock_step (by decide) hfBS hffBE]
    have hXlen : BOTTOM_START.length + (midPart t).length +
        (core.length + ("\n\n".toList : Str).length) + BOTTOM_END.length =
        (core ++ ("\n\n".toList ++ (BOTTOM_START ++ (midPart t ++ BOTTOM_END)))).length := by
      simp [List.length_append]
      omega
    have hcomp2 : pyStrip
        ((core ++ ("\n\n".toList ++ (BOTTOM_START ++ (midPart t ++ BOTTOM_END)))).take
            (core.length + ("\n\n".toList : Str).length) ++
         (core ++ ("\n\n".toList ++ (BOTTOM_START ++ (midPart t ++ BOTTOM_END)))).drop
            (BOTTOM_START.length + (midPart t).length +
              (core.length + ("\n\n".toList : Str).length) + BOTTOM_END.length)) =
        core := by
      rw [take_append2, hXlen, List.drop_length, List.append_nil]
      have hnil : core ++ "\n\n".toList = ([] ++ core) ++ "\n\n".toList := by simp
      rw [hnil]
      exact pyStrip_sandwich (by simp) (by decide) hcne hchead hclast
    rw [hcomp2]
    rw [stripBlock_notFound (findSub_eq_none_iff.mpr
      (fun j hj => hBS (infix_occurs_iff.mp ⟨j, hj⟩)))]
    exact hstr

theorem markerFree_props {s : Str} (h : markerFree s = true) :
    (¬ TOP_START <:+: s) ∧ (¬ TOP_END <:+: s) ∧
      (¬ BOTTOM_START <:+: s) ∧ (¬ BOTTOM_END <:+: s) := by
  unfold markerFree at h
  simp only [Bool.and_eq_true, Bool.not_eq_true'] at h
  obtain ⟨⟨⟨h1, h2⟩, h3⟩, h4⟩ := h
  exact ⟨containsSub_eq_false_iff.mp h1, containsSub_eq_false_iff.mp h2,
    containsSub_eq_false_iff.mp h3, containsSub_eq_false_iff.mp h4⟩

theorem apply_navigation_shape (d : Str) (t : NavTargets) :
    apply_navigation d t =
      (if !(strip_managed_navigation d).isEmpty then
        renderBlock TOP_START TOP_END t ++ "\n\n".toList ++
          strip_managed_navigation d ++ "\n\n".toList ++
          renderBlock BOTTOM_START BOTTOM_END t ++ ['\n']
      else
        renderBlock TOP_START TOP_END t ++ "\n\n".toList ++
          renderBlock BOTTOM_START BOTTOM_END t ++ ['\n']) := rfl

/-- Shared helper: under the marker-freeness side conditions, stripping an
applied document recovers the stripped original. -/
theorem strip_apply_core (d : Str) (t : NavTargets)
    (hmf : markerFree (strip_managed_navigation d) = true)
    (hct : cleanTargets t = true) :
    strip_managed_navigation (apply_navigation d t) = strip_managed_navigation d := by
  have hstr : pyStrip (strip_managed_navigation d) = strip_managed_navigation d :=
    pyStrip_idem _
  obtain ⟨h1, h2, h3, h4⟩ := markerFree_props hmf
  rw [apply_navigation_shape]
  exact strip_managed_of_wrapped _ t hstr h1 h2 h3 h4 hct

theorem apply_navigation_congr {x y : Str} (t : NavTargets)
    (h : strip_managed_navigation x = strip_managed_navigation y) :
    apply_navigation x t = apply_navigation y t := by
  unfold apply_navigation
  rw [h]

set_option maxRecDepth 40000 in
/-- C1 (counterexample): `apply_navigation` is not idempotent as claimed
for every document and targets.  On `advDoc` — whose stripped core is the
literal `TOP_START` marker — re-applying changes the document. -/
theorem apply_navigation_idem_counterexample :
    apply_navigation (apply_navigation advDoc navT0) navT0 ≠
      apply_navigation advDoc navT0 := by decide

/-- C1 (amended): `apply_navigation` is idempotent for all documents whose
stripped core contains no navigation marker and all targets whose URLs do
not contain `<!`:
`apply_navigation (apply_navigation d t) t = apply_navigation d t`. -/
theorem apply_navigation_idem_of_clean (d : Str) (t : NavTargets)
    (hmf : markerFree (strip_managed_navigation d) = true)
    (hct : cleanTargets t = true) :
    apply_navigation (apply_navigation d t) t = apply_navigation d t :=
  apply_navigation_congr t (strip_apply_core d t hmf hct)

/-- C1 (witness): the amended idempotence at a concrete document. -/
theorem apply_navigation_idem_of_clean_witness :
    markerFree (strip_managed_navigation helloDoc) = true ∧
      cleanTargets navT1 = true ∧
      apply_navigation (apply_navigation helloDoc navT1) navT1 =
        apply_navigation helloDoc navT1 :=
  ⟨by decide, by decide,
    apply_navigation_idem_of_clean helloDoc navT1 (by decide) (by decide)⟩

set_option maxRecDepth 40000 in
/-- C2 (counterexample): `strip(apply(D, T))` does not always equal
`strip(D)`: on `advDoc` the stripped core is the literal `TOP_START`
marker, and stripping the applied document erases it. -/
theorem strip_apply_roundtrip_counterexample :
    strip_managed_navigation (apply_navigation advDoc navT0) ≠
      strip_managed_navigation advDoc := by decide

/-- C2 (amended): for every document `D` whose stripped core contains no
navigation marker and targets `T` whose URLs do not contain `<!`,
`strip_managed_navigation (apply_navigation D T) = strip_managed_navigation D`,
whether or not `D` already contained navigation blocks. -/
theorem strip_apply_roundtrip_of_clean (d : Str) (t : NavTargets)
    (hmf : markerFree (strip_managed_navigation d) = true)
    (hct : cleanTargets t = true) :
    strip_managed_navigation (apply_navigation d t) = strip_managed_navigation d :=
  strip_apply_core d t hmf hct

/-- C2 (witness): the amended round trip at a concrete document that
already contains navigation blocks. -/
theorem strip_apply_roundtrip_of_clean_witness :
    markerFree (strip_managed_navigation helloDoc) = true ∧
      strip_managed_navigation (apply_navigation helloDoc navT1) =
        strip_managed_navigation helloDoc :=
  ⟨by decide, strip_apply_roundtrip_of_clean helloDoc navT1 (by decide) (by decide)⟩

/-- C3: the per-marker-pair scan of `_strip_block`.  If the start marker
occurs (first at `i`) and no end marker occurs at or after `i`, the
document is truncated at the start marker, the result right-trimmed, and
the scan stops; if the end marker occurs (first at or after `i` at `j`),
the full span through the end marker is deleted, the result trimmed, and
the scan repeats on the remainder. -/
theorem stripBlock_scan_behaviour (body s e : Str) (he : e ≠ []) :
    (∀ i, findSub s body = some i → findSubFrom e body i = none →
      stripBlock body s e = rstrip (body.take i)) ∧
    (∀ i j, findSub s body = some i → findSubFrom e body i = some j →
      stripBlock body s e =
        stripBlock (pyStrip (body.take i ++ body.drop (j + e.length))) s e) :=
  ⟨fun _ h1 h2 => stripBlock_trunc h1 h2,
   fun _ _ h1 h2 => stripBlock_step he h1 h2⟩

set_option maxRecDepth 4000 in
/-- C3 (witness): truncation on a malformed document and span removal on a
document with one complete block. -/
theorem stripBlock_scan_behaviour_witness :
    stripBlock malformedDoc TOP_START TOP_END = rstrip (malformedDoc.take 3) ∧
      stripBlock duplicatedDoc TOP_START TOP_END =
        stripBlock
          (pyStrip (duplicatedDoc.take 0 ++ duplicatedDoc.drop (37 + TOP_END.length)))
          TOP_START TOP_END :=
  ⟨(stripBlock_scan_behaviour malformedDoc TOP_START TOP_END (by decide)).1 3
      (by decide) (by decide),
   (stripBlock_scan_behaviour duplicatedDoc TOP_START TOP_END (by decide)).2 0 37
      (by decide) (by decide)⟩

/-- The two `render_nav_block` calls issued by `apply_navigation` always
succeed and produce exactly the blocks `apply_navigation` embeds. -/
theorem render_nav_block_total (t : NavTargets) :
    render_nav_block "top".toList t = some (renderBlock TOP_START TOP_END t) ∧
      render_nav_block "bottom".toList t =
        some (renderBlock BOTTOM_START BOTTOM_END t) := by
  constructor
  · rfl
  · unfold render_nav_block
    rw [if_neg (by decide), if_pos rfl]

/-- C9: `render_nav_block` rejects exactly the positions other than
`"top"` and `"bottom"` (and, the codec's total functions
`strip_managed_navigation` / `apply_navigation` aside, it is the only
codec operation modelled with a failure case). -/
theorem render_nav_block_fails_iff (position : Str) (t : NavTargets) :
    render_nav_block position t = none ↔
      position ≠ "top".toList ∧ position ≠ "bottom".toList := by
  unfold render_nav_block
  by_cases h1 : position = "top".toList
  · rw [if_pos h1]
    simp [h1]
  · rw [if_neg h1]
    by_cases h2 : position = "bottom".toList
    · rw [if_pos h2]
      simp [h2]
    · rw [if_neg h2]
      constructor
      · intro _
        exact ⟨h1, h2⟩
      · intro _
        rfl

/-- C5: the `NavTargets` computed by the sync loop for 1-indexed position
`idx` in a list of at least two entries: `first`/`last` are the first and
last entries' URLs, `prev` is absent exactly at `idx = 1` and otherwise
entry `idx - 1`'s URL, `next` is absent exactly at `idx = N` and otherwise
entry `idx + 1`'s URL (entry `k` is `lit.getD (k - 1) default`). -/
theorem navTargetsFor_correct (lit : List DeviationSummary) (idx : Nat)
    (_hN : 2 ≤ lit.length) (hlo : 1 ≤ idx) (hhi : idx ≤ lit.length) :
    (navTargetsFor lit idx).first = (lit.getD 0 default).url ∧
    (navTargetsFor lit idx).last = (lit.getD (lit.length - 1) default).url ∧
    ((navTargetsFor lit idx).prev = none ↔ idx = 1) ∧
    (2 ≤ idx →
      (navTargetsFor lit idx).prev = some ((lit.getD (idx - 2) default).url)) ∧
    ((navTargetsFor lit idx).next = none ↔ idx = lit.length) ∧
    (idx < lit.length →
      (navTargetsFor lit idx).next = some ((lit.getD idx default).url)) := by
  refine ⟨rfl, rfl, ?_, ?_, ?_, ?_⟩
  · show (if 1 < idx then some ((lit.getD (idx - 2) default).url) else none) =
        none ↔ idx = 1
    by_cases h : 1 < idx
    · rw [if_pos h]
      constructor
      · intro hc
        exact absurd hc (by simp)
      · intro hc
        omega
    · rw [if_neg h]
      constructor
      · intro _
        omega
      · intro _
        rfl
  · intro h
    show (if 1 < idx then some ((lit.getD (idx - 2) default).url) else none) =
        some ((lit.getD (idx - 2) default).url)
    rw [if_pos (by omega : 1 < idx)]
  · show (if idx < lit.length then some ((lit.getD idx default).url) else none) =
        none ↔ idx = lit.length
    by_cases h : idx < lit.length
    · rw [if_pos h]
      constructor
      · intro hc
        exact absurd hc (by simp)
      · intro hc
        omega
    · rw [if_neg h]
      constructor
      · intro _
        omega
      · intro _
        rfl
  · intro h
    show (if idx < lit.length then some ((lit.getD idx default).url) else none) =
        some ((lit.getD idx default).url)
    rw [if_pos h]

/-- C5 (witness): the middle entry of a three-entry list points at its
neighbours. -/
theorem navTargetsFor_correct_witness :
    (navTargetsFor lit3 2).prev = some ((lit3.getD 0 default).url) ∧
      (navTargetsFor lit3 2).next = some ((lit3.getD 2 default).url) :=
  ⟨(navTargetsFor_correct lit3 2 (by decide) (by decide) (by decide)).2.2.2.1
      (by decide),
   (navTargetsFor_correct lit3 2 (by decide) (by decide) (by decide)).2.2.2.2.2
      (by decide)⟩

/-- C4 (counterexample): the loop does not stop whenever `has_more` is set
and the page returned zero items: with a server-supplied `next_offset` the
iteration continues, and here the state is a fixed point, so the loop
never terminates. -/
theorem listGallery_zero_items_no_stop :
    (badSrv 0 galleryLimit).has_more = true ∧
      parse_gallery_results (badSrv 0 galleryLimit).results = [] ∧
      listGalleryStep badSrv pagInit = pagInit ∧
      pagInit.done = false :=
  ⟨rfl, rfl, rfl, rfl⟩

/-- C4 (amended): one iteration of `list_gallery`'s loop (requests use the
fixed limit 24): when `has_more` is clear the loop stops; when `has_more`
is set it prefers an integer server-supplied `next_offset`, continuing
even on an empty page; only when `next_offset` is not an integer does it
stop on an empty page, and otherwise it advances the offset by the number
of items just received. -/
theorem listGalleryStep_behaviour (srv : Int → Nat → GalleryPage)
    (st : PagState) (hrun : st.done = false) :
    ((srv st.offset galleryLimit).has_more = false →
      listGalleryStep srv st =
        ⟨st.offset,
         st.acc ++ parse_gallery_results (srv st.offset galleryLimit).results,
         true⟩) ∧
    (∀ n, (srv st.offset galleryLimit).has_more = true →
      (srv st.offset galleryLimit).next_offset = some n →
      listGalleryStep srv st =
        ⟨n, st.acc ++ parse_gallery_results (srv st.offset galleryLimit).results,
         false⟩) ∧
    ((srv st.offset galleryLimit).has_more = true →
      (srv st.offset galleryLimit).next_offset = none →
      parse_gallery_results (srv st.offset galleryLimit).results = [] →
      listGalleryStep srv st =
        ⟨st.offset,
         st.acc ++ parse_gallery_results (srv st.offset galleryLimit).results,
         true⟩) ∧
    ((srv st.offset galleryLimit).has_more = true →
      (srv st.offset galleryLimit).next_offset = none →
      parse_gallery_results (srv st.offset galleryLimit).results ≠ [] →
      listGalleryStep srv st =
        ⟨st.offset +
           (parse_gallery_results (srv st.offset galleryLimit).results).length,
         st.acc ++ parse_gallery_results (srv st.offset galleryLimit).results,
         false⟩) := by
  refine ⟨?_, ?_, ?_, ?_⟩
  · intro hm
    unfold listGalleryStep
    rw [if_neg (by rw [hrun]; simp)]
    simp only [hm, Bool.not_false, if_true]
  · intro n hm hn
    unfold listGalleryStep
    rw [if_neg (by rw [hrun]; simp)]
    simp only [hm, Bool.not_true, if_false, hn]
    rfl
  · intro hm hn hitems
    unfold listGalleryStep
    rw [if_neg (by rw [hrun]; simp)]
    simp only [hm, Bool.not_true, if_false, hn, hitems, List.isEmpty_nil, if_true]
    rfl
  · intro hm hn hitems
    unfold listGalleryStep
    rw [if_neg (by rw [hrun]; simp)]
    simp only [hm, Bool.not_true, if_false, hn]
    have hie : (parse_gallery_results (srv st.offset galleryLimit).results).isEmpty =
        false := by
      cases hpg : parse_gallery_results (srv st.offset galleryLimit).results with
      | nil => exact absurd hpg hitems
      | cons a as => rfl
    rw [hie]
    rfl

/-- C4 (witness): a stopping step on a server whose single page carries no
more data. -/
theorem listGalleryStep_behaviour_witness :
    listGalleryStep goodSrv pagInit =
      ⟨pagInit.offset,
       pagInit.acc ++ parse_gallery_results (goodSrv pagInit.offset galleryLimit).results,
       true⟩ :=
  (listGalleryStep_behaviour goodSrv pagInit rfl).1 rfl

theorem kind_chain_eq (k0 : Str) (dict : Bool) :
    (if (if k0.isEmpty && dict then "literature".toList else k0).isEmpty then
      "unknown".toList
    else (if k0.isEmpty && dict then "literature".toList else k0)) =
    (if k0 ≠ [] then k0
     else if dict then "literature".toList else "unknown".toList) := by
  by_cases h0 : k0 = []
  · subst h0
    cases dict
    · rfl
    · rfl
  · have h0b : k0.isEmpty = false := by
      cases k0
      · exact absurd rfl h0
      · rfl
    have hc1 : (k0.isEmpty && dict) = false := by rw [h0b]; rfl
    simp [hc1, h0b, h0]

/-- C7: a raw gallery entry is dropped exactly when its stripped
id / title / url is empty; the kind of a kept entry comes from the type
field when non-empty, else is `"literature"` when the entry carries a
nested text-content dict, else `"unknown"`; and `is_literature` holds
exactly for kind `"literature"`.  Membership in `parse_gallery_results` is
exactly per-entry success. -/
theorem parse_gallery_results_spec :
    (∀ entry : RawEntry,
      (parseGalleryEntry entry = none ↔
        pyStrip (strOrEmpty entry.deviationid) = [] ∨
          pyStrip (strOrEmpty entry.title) = [] ∨
          pyStrip (strOrEmpty entry.url) = [])) ∧
    (∀ entry : RawEntry, ∀ s, parseGalleryEntry entry = some s →
      s.kind =
        (if asciiLower (pyStrip (strOrEmpty entry.type)) ≠ [] then
          asciiLower (pyStrip (strOrEmpty entry.type))
        else if entry.text_content_is_dict then "literature".toList
        else "unknown".toList)) ∧
    (∀ s : DeviationSummary, s.is_literature = true ↔ s.kind = "literature".toList) ∧
    (∀ results : List RawEntry, ∀ s,
      s ∈ parse_gallery_results results ↔
        ∃ entry ∈ results, parseGalleryEntry entry = some s) := by
  refine ⟨?_, ?_, ?_, ?_⟩
  · intro entry
    unfold parseGalleryEntry
    by_cases h : (pyStrip (strOrEmpty entry.deviationid)).isEmpty ||
        (pyStrip (strOrEmpty entry.title)).isEmpty ||
        (pyStrip (strOrEmpty entry.url)).isEmpty
    · rw [if_pos h]
      simp only [true_iff]
      simpa [List.isEmpty_iff, or_assoc] using h
    · rw [if_neg h]
      constructor
      · intro hc
        exact absurd hc (by simp)
      · intro hc
        exact absurd (by simpa [List.isEmpty_iff, or_assoc] using hc) h
  · intro entry s hs
    unfold parseGalleryEntry at hs
    by_cases h : (pyStrip (strOrEmpty entry.deviationid)).isEmpty ||
        (pyStrip (strOrEmpty entry.title)).isEmpty ||
        (pyStrip (strOrEmpty entry.url)).isEmpty
    · rw [if_pos h] at hs
      exact absurd hs (by simp)
    · rw [if_neg h] at hs
      have hkind := congrArg DeviationSummary.kind (Option.some.inj hs)
      rw [← hkind]
      exact kind_chain_eq _ _
  · intro s
    unfold DeviationSummary.is_literature
    exact beq_iff_eq
  · intro results s
    unfold parse_gallery_results
    exact List.mem_filterMap

/-- C7 (witness): the kind characterization evaluated at the concrete
literature entry `entryA`. -/
theorem parse_gallery_results_spec_witness :
    devA.kind =
      (if asciiLower (pyStrip (strOrEmpty entryA.type)) ≠ [] then
        asciiLower (pyStrip (strOrEmpty entryA.type))
      else if entryA.text_content_is_dict then "literature".toList
      else "unknown".toList) :=
  parse_gallery_results_spec.2.1 entryA devA (by decide)

/-- C8: `slugify_name` collapses `"Test Gallery"` and `"testgallery"` to
the same slug `"testgallery"`, and every character it emits is a lowercase
ASCII letter or digit (everything else is removed). -/
theorem slugify_name_spec :
    slugify_name "Test Gallery".toList = "testgallery".toList ∧
      slugify_name "testgallery".toList = "testgallery".toList ∧
      ∀ s, ∀ c ∈ slugify_name s, isLowerAlnum c = true := by
  refine ⟨by decide, by decide, ?_⟩
  intro s c hc
  unfold slugify_name at hc
  exact List.of_mem_filter hc

/-- C8 (witness): every character of the example slug is lowercase
alphanumeric. -/
theorem slugify_name_spec_witness : isLowerAlnum 't' = true :=
  slugify_name_spec.2.2 "Test Gallery".toList 't' (by decide)

/-- C10: `parse_gallery_target` only ever produces a `folder_ref` that is
`None` or all digits, so the dash test guarding the resolver's "direct id"
path never fires on a parsed target. -/
theorem parsed_target_never_direct_id (raw : Str) (t : GalleryTarget)
    (h : parse_gallery_target raw = .ok t) : directFolderIdPath t = false := by
  unfold parse_gallery_target at h
  by_cases h1 : (pyStrip raw).isEmpty
  · rw [if_pos h1] at h
    exact absurd h (by simp)
  · rw [if_neg h1] at h
    simp only [] at h
    by_cases h2 : containsSub "://".toList (pyStrip raw)
    · rw [if_neg (by rw [h2]; decide)] at h
      by_cases h3 : urlNetloc (pyStrip raw) ≠ "www.deviantart.com".toList
      · rw [if_pos h3] at h
        exact absurd h (by simp)
      · rw [if_neg h3] at h
        by_cases h4 : (pathParts (pyStrip raw)).length < 2 ∨
            (pathParts (pyStrip raw)).getD 1 [] ≠ "gallery".toList
        · rw [if_pos h4] at h
          exact absurd h (by simp)
        · rw [if_neg h4] at h
          have ht := Except.ok.inj h
          subst ht
          by_cases h5 : 3 ≤ (pathParts (pyStrip raw)).length ∧
              pyIsDigit ((pathParts (pyStrip raw)).getD 2 [])
          · rw [if_pos h5]
            show (!((pathParts (pyStrip raw)).getD 2 []).isEmpty &&
                containsSub ['-'] ((pathParts (pyStrip raw)).getD 2 [])) = false
            have hdig := h5.2
            unfold pyIsDigit at hdig
            rw [Bool.and_eq_true] at hdig
            have hall := hdig.2
            rw [List.all_eq_true] at hall
            cases hcs : containsSub ['-'] ((pathParts (pyStrip raw)).getD 2 [])
            · simp
            · obtain ⟨l, r, hlr⟩ := containsSub_eq_true_iff.mp hcs
              have hmem : '-' ∈ (pathParts (pyStrip raw)).getD 2 [] := by
                rw [← hlr]
                simp
              have := hall '-' hmem
              exact absurd this (by decide)
          · rw [if_neg h5]
            rfl
    · have h2b : containsSub "://".toList (pyStrip raw) = false := by
        cases hb : containsSub "://".toList (pyStrip raw)
        · rfl
        · exact absurd hb h2
      rw [if_pos (by rw [h2b]; decide)] at h
      have ht := Except.ok.inj h
      subst ht
      rfl

/-- C10 (witness): the parsed numeric folder reference of the example URL
does not take the direct-id path. -/
theorem parsed_target_never_direct_id_witness :
    directFolderIdPath
      ⟨"zoec98".toList, some "100193480".toList, some "testgallery".toList⟩ =
      false :=
  parsed_target_never_direct_id
    "https://www.deviantart.com/zoec98/gallery/100193480/testgallery".toList
    ⟨"zoec98".toList, some "100193480".toList, some "testgallery".toList⟩
    (by rfl)

/-- C6: `parse_gallery_target` maps scheme-less input to a bare-username
target; empty trimmed input fails; with a scheme it fails unless the host
is exactly `www.deviantart.com` and the path has at least two segments
with the second literally `gallery`; on success the username is the first
segment, `folder_ref` is the third segment exactly when it is all digits,
and `folder_slug` is the stripped, lower-cased fourth segment when
present. -/
theorem parse_gallery_target_spec :
    (parse_gallery_target "zoec98".toList =
      .ok ⟨"zoec98".toList, none, none⟩) ∧
    (parse_gallery_target
        "https://www.deviantart.com/zoec98/gallery/100193480/testgallery".toList =
      .ok ⟨"zoec98".toList, some "100193480".toList, some "testgallery".toList⟩) ∧
    (parse_gallery_target
        "https://example.com/zoec98/gallery/100193480/testgallery".toList =
      .error "Gallery URL must use host www.deviantart.com.".toList) ∧
    (∀ raw, pyStrip raw = [] →
      parse_gallery_target raw = .error "Gallery input must not be empty.".toList) ∧
    (∀ raw, pyStrip raw ≠ [] → containsSub "://".toList (pyStrip raw) = false →
      parse_gallery_target raw = .ok ⟨pyStrip raw, none, none⟩) ∧
    (∀ raw, containsSub "://".toList (pyStrip raw) = true →
      urlNetloc (pyStrip raw) ≠ "www.deviantart.com".toList →
      parse_gallery_target raw =
        .error "Gallery URL must use host www.deviantart.com.".toList) ∧
    (∀ raw, containsSub "://".toList (pyStrip raw) = true →
      urlNetloc (pyStrip raw) = "www.deviantart.com".toList →
      ((pathParts (pyStrip raw)).length < 2 ∨
        (pathParts (pyStrip raw)).getD 1 [] ≠ "gallery".toList) →
      parse_gallery_target raw =
        .error "Gallery URL must look like /<user>/gallery/... .".toList) ∧
    (∀ raw, containsSub "://".toList (pyStrip raw) = true →
      urlNetloc (pyStrip raw) = "www.deviantart.com".toList →
      2 ≤ (pathParts (pyStrip raw)).length →
      (pathParts (pyStrip raw)).getD 1 [] = "gallery".toList →
      parse_gallery_target raw = .ok
        ⟨(pathParts (pyStrip raw)).getD 0 [],
         if 3 ≤ (pathParts (pyStrip raw)).length ∧
             pyIsDigit ((pathParts (pyStrip raw)).getD 2 []) then
           some ((pathParts (pyStrip raw)).getD 2 [])
         else none,
         if 4 ≤ (pathParts (pyStrip raw)).length then
           some (asciiLower (pyStrip ((pathParts (pyStrip raw)).getD 3 [])))
         else none⟩) := by
  refine ⟨by rfl, by rfl, by rfl, ?_, ?_, ?_, ?_, ?_⟩
  · intro raw hraw
    unfold parse_gallery_target
    rw [if_pos (by rw [hraw]; rfl)]
  · intro raw hne hns
    unfold parse_gallery_target
    rw [if_neg (by
      intro hc
      exact hne (by simpa [List.isEmpty_iff] using hc))]
    simp only []
    rw [if_pos (by rw [hns]; decide)]
  · intro raw hcs hnet
    have hne : (pyStrip raw).isEmpty = false := by
      cases hp : pyStrip raw
      · rw [hp] at hcs
        exact absurd hcs (by decide)
      · rfl
    unfold parse_gallery_target
    rw [if_neg (by rw [hne]; decide)]
    simp only []
    rw [if_neg (by rw [hcs]; decide), if_pos hnet]
  · intro raw hcs hnet hbad
    have hne : (pyStrip raw).isEmpty = false := by
      cases hp : pyStrip raw
      · rw [hp] at hcs
        exact absurd hcs (by decide)
      · rfl
    unfold parse_gallery_target
    rw [if_neg (by rw [hne]; decide)]
    simp only []
    rw [if_neg (by rw [hcs]; decide), if_neg (by rw [hnet]; intro hc; exact hc rfl),
      if_pos hbad]
  · intro raw hcs hnet hlen hgal
    have hne : (pyStrip raw).isEmpty = false := by
      cases hp : pyStrip raw
      · rw [hp] at hcs
        exact absurd hcs (by decide)
      · rfl
    unfold parse_gallery_target
    rw [if_neg (by rw [hne]; decide)]
    simp only []
    rw [if_neg (by rw [hcs]; decide), if_neg (by rw [hnet]; intro hc; exact hc rfl),
      if_neg (by
        intro hor
        rcases hor with hlt | hg
        · omega
        · exact hg hgal)]

/-- C6 (witness): the scheme-less and the empty-input conjuncts at
concrete inputs. -/
theorem parse_gallery_target_spec_witness :
    parse_gallery_target "zoec98 ".toList =
        .ok ⟨pyStrip "zoec98 ".toList, none, none⟩ ∧
      parse_gallery_target "   ".toList =
        .error "Gallery input must not be empty.".toList :=
  ⟨parse_gallery_target_spec.2.2.2.2.1 "zoec98 ".toList (by decide) (by decide),
   parse_gallery_target_spec.2.2.2.1 "   ".toList (by decide)⟩

end DaStoryEdit
